import Mathlib

/-!
Verification of the sale-phase admission and supply-accounting engine of the
AnggaDanarP/NFT-project fixed-supply token contract.

The repository ships the contract's black-box test suite and deployment
configuration; the contract body itself is absent, so every operational
definition below is modelled from the specification (spec.md sections 3-6),
which pins the data model, the order of checks of each mint entry point, the
allowlist verifier, and the read queries.
-/

deriving instance DecidableEq for Except

namespace NftDemo

/-- An account address, abstracted to a natural number. -/
abbrev Addr := Nat

/-- Modelled from the spec: the categorical error kinds of section 7; the
contract surfaces each failed call with exactly one of these reasons. -/
inductive Err where
  | Unauthorized
  | ContractPaused
  | WhitelistNotEnabled
  | InvalidAmount
  | InsufficientPayment
  | AlreadyClaimed
  | InvalidProof
  | PreSaleSupplyExceeded
  | PublicSaleSupplyExceeded
  | MaxSupplyExceeded
  | NonexistentToken
deriving DecidableEq, Repr

/-- Modelled from the spec: the hash primitives used by the allowlist
commitment (keccak256 in the real system), kept abstract: `leaf` hashes an
address to its leaf value, `pair` hashes an ordered pair of node values. -/
structure HashModel where
  leaf : Addr → Nat
  pair : Nat → Nat → Nat

/-- The pair hash is collision-free as a function of ordered pairs; the
idealised assumption under which Merkle verification binds the caller. -/
def PairInjective (H : HashModel) : Prop :=
  ∀ a b c d, H.pair a b = H.pair c d → a = c ∧ b = d

/-- Modelled from the spec (section 4.1): one fold step of the sorted-pairs
commitment scheme: hash the smaller of the running hash and the next proof
element first. -/
def hashStep (H : HashModel) (r p : Nat) : Nat :=
  if r ≤ p then H.pair r p else H.pair p r

/-- Modelled from the spec (section 4.1): AllowlistVerifier.verify: fold the
proof over the candidate's leaf and compare with the committed root. -/
def verify (H : HashModel) (candidate : Addr) (proof : List Nat)
    (root : Nat) : Bool :=
  proof.foldl (hashStep H) (H.leaf candidate) == root

/-- Modelled from the spec (section 3): the contract state: SaleConfig
(owner-mutable parameters), SupplyLedger (counters and claim records) and
OwnershipIndex (append-only token ownership records; the token with
external identifier `i + 1` is owned by entry `i` of `owners`).  The supply
ceilings are compile-time constants of the missing contract and are carried
as immutable fields. -/
structure State where
  contractOwner : Addr
  name : String
  symbol : String
  cost : Nat
  maxSupply : Nat
  maxSupplyPreSale : Nat
  maxSupplyPublicSale : Nat
  maxMintAmountPerTx : Nat
  paused : Bool
  whitelistMintEnabled : Bool
  merkleRoot : Nat
  revealed : Bool
  hiddenMetadataUri : String
  uriPrefix : String
  uriSuffix : String
  preSaleMinted : Nat
  publicSaleMinted : Nat
  claimed : List Addr
  owners : List Addr
deriving DecidableEq, Repr

/-- Modelled from the spec (section 6): the read query `totalSupply`: the
number of allocated token identifiers. -/
def totalSupply (s : State) : Nat :=
  s.owners.length

/-- Modelled from the spec (section 6): deployment with constructor
arguments name, symbol, initial whitelist price, initial per-transaction
limit and hidden metadata URI; the ceilings are the contract's constants,
counters start at zero, no token is allocated, and the contract starts
paused with the whitelist phase disabled and metadata unrevealed. -/
def deploy (ownerAddr : Addr) (tokenName tokenSymbol : String)
    (whitelistPrice limit : Nat) (hiddenUri : String)
    (maxS maxPre maxPub : Nat) : State :=
  { contractOwner := ownerAddr
    name := tokenName
    symbol := tokenSymbol
    cost := whitelistPrice
    maxSupply := maxS
    maxSupplyPreSale := maxPre
    maxSupplyPublicSale := maxPub
    maxMintAmountPerTx := limit
    paused := true
    whitelistMintEnabled := false
    merkleRoot := 0
    revealed := false
    hiddenMetadataUri := hiddenUri
    uriPrefix := ""
    uriSuffix := ""
    preSaleMinted := 0
    publicSaleMinted := 0
    claimed := []
    owners := [] }

/-- Modelled from the spec (section 4.3): the whitelist-phase mint, with the
documented order of checks: phase enable, amount, payment, claim flag,
proof, pre-sale ceiling; on success the caller is marked claimed, `amount`
contiguous identifiers are allocated to the caller and `preSaleMinted` is
increased. -/
def preSaleMint (H : HashModel) (s : State) (caller : Addr) (amount : Nat)
    (proof : List Nat) (payment : Nat) : Except Err State :=
  if s.whitelistMintEnabled = false then .error .WhitelistNotEnabled
  else if amount = 0 ∨ s.maxMintAmountPerTx < amount then .error .InvalidAmount
  else if payment < s.cost * amount then .error .InsufficientPayment
  else if caller ∈ s.claimed then .error .AlreadyClaimed
  else if verify H caller proof s.merkleRoot = false then .error .InvalidProof
  else if s.maxSupplyPreSale < s.preSaleMinted + amount then
    .error .PreSaleSupplyExceeded
  else .ok { s with
    claimed := caller :: s.claimed
    owners := s.owners ++ List.replicate amount caller
    preSaleMinted := s.preSaleMinted + amount }

/-- Modelled from the spec (section 4.4): the public-phase mint, with the
documented order of checks: pause, amount, payment, public-sale ceiling,
total-supply ceiling; on success `amount` contiguous identifiers are
allocated to the caller and `publicSaleMinted` is increased. -/
def publicMint (s : State) (caller : Addr) (amount : Nat)
    (payment : Nat) : Except Err State :=
  if s.paused then .error .ContractPaused
  else if amount = 0 ∨ s.maxMintAmountPerTx < amount then .error .InvalidAmount
  else if payment < s.cost * amount then .error .InsufficientPayment
  else if s.maxSupplyPublicSale < s.publicSaleMinted + amount then
    .error .PublicSaleSupplyExceeded
  else if s.maxSupply < s.preSaleMinted + s.publicSaleMinted + amount then
    .error .MaxSupplyExceeded
  else .ok { s with
    owners := s.owners ++ List.replicate amount caller
    publicSaleMinted := s.publicSaleMinted + amount }

/-- Modelled from the spec (section 4.5): the owner gift mint: owner-only,
amount-limited, free of payment, pause, phase and proof checks, but subject
to the same supply-ceiling checks as the public mint and counted against
public-sale accounting. -/
def giftMint (s : State) (caller : Addr) (amount : Nat)
    (recipient : Addr) : Except Err State :=
  if caller ≠ s.contractOwner then .error .Unauthorized
  else if amount = 0 ∨ s.maxMintAmountPerTx < amount then .error .InvalidAmount
  else if s.maxSupplyPublicSale < s.publicSaleMinted + amount then
    .error .PublicSaleSupplyExceeded
  else if s.maxSupply < s.preSaleMinted + s.publicSaleMinted + amount then
    .error .MaxSupplyExceeded
  else .ok { s with
    owners := s.owners ++ List.replicate amount recipient
    publicSaleMinted := s.publicSaleMinted + amount }

/-- Modelled from the spec (section 4.2): the shared shape of every owner
setter: non-owner callers fail with Unauthorized, the owner overwrites the
field unconditionally. -/
def ownerOnly (s : State) (caller : Addr) (upd : State → State) :
    Except Err State :=
  if caller ≠ s.contractOwner then .error .Unauthorized else .ok (upd s)

def setMerkleRoot (s : State) (caller : Addr) (root : Nat) : Except Err State :=
  ownerOnly s caller (fun t => { t with merkleRoot := root })

def setWhitelistMintEnabled (s : State) (caller : Addr) (b : Bool) :
    Except Err State :=
  ownerOnly s caller (fun t => { t with whitelistMintEnabled := b })

def setPaused (s : State) (caller : Addr) (b : Bool) : Except Err State :=
  ownerOnly s caller (fun t => { t with paused := b })

def setCost (s : State) (caller : Addr) (c : Nat) : Except Err State :=
  ownerOnly s caller (fun t => { t with cost := c })

def setMaxMintAmountPerTx (s : State) (caller : Addr) (n : Nat) :
    Except Err State :=
  ownerOnly s caller (fun t => { t with maxMintAmountPerTx := n })

def setHiddenMetadataUri (s : State) (caller : Addr) (u : String) :
    Except Err State :=
  ownerOnly s caller (fun t => { t with hiddenMetadataUri := u })

def setUriPrefix (s : State) (caller : Addr) (u : String) : Except Err State :=
  ownerOnly s caller (fun t => { t with uriPrefix := u })

def setUriSuffix (s : State) (caller : Addr) (u : String) : Except Err State :=
  ownerOnly s caller (fun t => { t with uriSuffix := u })

def setRevealed (s : State) (caller : Addr) (b : Bool) : Except Err State :=
  ownerOnly s caller (fun t => { t with revealed := b })

/-- Modelled from the spec (section 6): fund withdrawal is out of the core
scope beyond its owner gate: non-owner callers fail with Unauthorized. -/
def withdrawFunds (s : State) (caller : Addr) : Except Err State :=
  ownerOnly s caller (fun t => t)

/-- Modelled from the spec (section 4.5 of the missing contract's standard
library): decimal rendering of a token identifier, most significant digit
first, used by tokenURI after reveal. -/
def natDecimal (n : Nat) : String :=
  if n = 0 then "0" else ((Nat.digits 10 n).reverse.map Nat.digitChar).asString

/-- Modelled from the spec (section 6): tokenURI: identifier 0 and every
unallocated identifier are nonexistent; before reveal every valid
identifier resolves to the single hidden metadata URI; after reveal to the
URI prefix, the decimal identifier and the URI suffix concatenated. -/
def tokenURI (s : State) (id : Nat) : Except Err String :=
  if id = 0 ∨ s.owners.length < id then .error .NonexistentToken
  else if s.revealed = false then .ok s.hiddenMetadataUri
  else .ok ( s.uriPrefix ++ natDecimal id ++ s.uriSuffix)

/-- Modelled from the spec (section 6): the owner of an external token
identifier, if allocated: identifier `i + 1` is held by entry `i` of the
ownership records. -/
def ownerOf (s : State) (id : Nat) : Option Addr :=
  if id = 0 then none else s.owners.get? (id - 1)

/-- Modelled from the spec (section 4.6): walletOfOwner: scan the full
allocated identifier range in ascending order and keep the identifiers
currently owned by the queried address. -/
def walletOfOwner (s : State) (x : Addr) : List Nat :=
  ((List.range s.owners.length).map (· + 1)).filter
    (fun id => ownerOf s id == some x)

/-- A mint request: one of the three mint entry points together with its
call arguments. -/
inductive MintOp where
  | presale (caller : Addr) (amount : Nat) (proof : List Nat) (payment : Nat)
  | public (caller : Addr) (amount : Nat) (payment : Nat)
  | gift (caller : Addr) (amount : Nat) (recipient : Addr)
deriving DecidableEq, Repr

/-- Execute one mint request against the state: a failed call aborts with
no partial mutation, so the state is returned unchanged. -/
def execMint (H : HashModel) (s : State) : MintOp → State
  | .presale c a pf pay =>
    match preSaleMint H s c a pf pay with
    | .ok s' => s'
    | .error _ => s
  | .public c a pay =>
    match publicMint s c a pay with
    | .ok s' => s'
    | .error _ => s
  | .gift c a r =>
    match giftMint s c a r with
    | .ok s' => s'
    | .error _ => s

/-- Execute a sequence of mint requests in order. -/
def execMints (H : HashModel) (s : State) (ops : List MintOp) : State :=
  ops.foldl (execMint H) s

/-- The supply-accounting invariant of the SupplyLedger (section 3): the
phase counters respect their ceilings, the allocated identifiers are
exactly counted by the two phase counters, and total supply respects the
global ceiling. -/
abbrev SupplyInv (s : State) : Prop :=
  s.preSaleMinted ≤ s.maxSupplyPreSale ∧
  s.publicSaleMinted ≤ s.maxSupplyPublicSale ∧
  totalSupply s = s.preSaleMinted + s.publicSaleMinted ∧
  totalSupply s ≤ s.maxSupply

/-- The owner-responsibility ceiling equation of section 3: the two phase
ceilings partition the global ceiling. -/
abbrev CeilingsEq (s : State) : Prop :=
  s.maxSupplyPreSale + s.maxSupplyPublicSale = s.maxSupply

/-- A concrete collision-free hash model used to exercise the verifier:
leaves are the addresses themselves and pairs are combined with the
Cantor-style pairing function. -/
def concreteHash : HashModel :=
  { leaf := fun a => a, pair := Nat.pair }

/-- A small concrete deployment used to exercise the theorems: owner 0,
whitelist price 5, per-transaction limit 2, ceilings 1 + 2 = 3. -/
def baseState : State :=
  deploy 0 "DemoProject" "DPnft" 5 2 "ipfs hidden.json" 3 1 2

/-- The small deployment with the public phase open and the public-sale
ceiling exactly reached. -/
def pubFullState : State :=
  { baseState with paused := false, publicSaleMinted := 2, owners := [7, 7] }

/-- The small deployment with the public phase open, room below the
public-sale ceiling but the global ceiling exactly reached. -/
def totFullState : State :=
  { baseState with
    paused := false
    preSaleMinted := 2
    publicSaleMinted := 1
    owners := [8, 8, 7] }

/-- The small deployment with the whitelist phase enabled and the allowlist
root committed to the single address 5 (under concreteHash the leaf of 5 is
5 itself, so the empty proof verifies for caller 5). -/
def wlState : State :=
  { baseState with whitelistMintEnabled := true, merkleRoot := 5 }

/-- The whitelist state after address 5 successfully minted one token. -/
def wlAfterState : State :=
  { wlState with claimed := [5], owners := [5], preSaleMinted := 1 }

/-- A revealed state with two allocated tokens, used to exercise tokenURI. -/
def revealState : State :=
  { baseState with
    revealed := true
    owners := [4, 6]
    uriPrefix := "ipfs base/"
    uriSuffix := ".json" }

/-- A Boolean that is not false is true. -/
theorem bool_ne_false (b : Bool) (h : ¬(b = false)) : b = true := by
  cases b with
  | false => exact absurd rfl h
  | true => rfl

/-- A Boolean that is not true is false. -/
theorem bool_ne_true (b : Bool) (h : ¬(b = true)) : b = false := by
  cases b with
  | false => rfl
  | true => exact absurd rfl h

/-- A whitelist mint succeeds exactly when the documented checks all pass,
and then performs exactly the documented state update. -/
theorem preSaleMint_ok_iff (H : HashModel) (s : State) (c : Addr) (a : Nat)
    (pf : List Nat) (pay : Nat) (s' : State) :
    preSaleMint H s c a pf pay = .ok s' ↔
      (s.whitelistMintEnabled = true ∧ a ≠ 0 ∧ a ≤ s.maxMintAmountPerTx ∧
       s.cost * a ≤ pay ∧ c ∉ s.claimed ∧
       verify H c pf s.merkleRoot = true ∧
       s.preSaleMinted + a ≤ s.maxSupplyPreSale ∧
       s' = { s with
         claimed := c :: s.claimed
         owners := s.owners ++ List.replicate a c
         preSaleMinted := s.preSaleMinted + a }) := by
  constructor
  · intro h
    unfold preSaleMint at h
    split_ifs at h with h1 h2 h3 h4 h5 h6
    injection h with h
    exact ⟨bool_ne_false _ h1, by omega, by omega, Nat.le_of_not_lt h3, h4,
        bool_ne_false _ h5, Nat.le_of_not_lt h6, h.symm⟩
  · rintro ⟨hw, ha0, ha, hpay, hcl, hv, hsup, rfl⟩
    unfold preSaleMint
    rw [if_neg (by simp [hw]), if_neg (by omega), if_neg (by omega),
      if_neg hcl, if_neg (by simp [hv]), if_neg (by omega)]

/-- A public mint succeeds exactly when the documented checks all pass,
and then performs exactly the documented state update. -/
theorem publicMint_ok_iff (s : State) (c : Addr) (a : Nat) (pay : Nat)
    (s' : State) :
    publicMint s c a pay = .ok s' ↔
      (s.paused = false ∧ a ≠ 0 ∧ a ≤ s.maxMintAmountPerTx ∧
       s.cost * a ≤ pay ∧
       s.publicSaleMinted + a ≤ s.maxSupplyPublicSale ∧
       s.preSaleMinted + s.publicSaleMinted + a ≤ s.maxSupply ∧
       s' = { s with
         owners := s.owners ++ List.replicate a c
         publicSaleMinted := s.publicSaleMinted + a }) := by
  constructor
  · intro h
    unfold publicMint at h
    split_ifs at h with h1 h2 h3 h4 h5
    injection h with h
    exact ⟨bool_ne_true _ h1, by omega, by omega, Nat.le_of_not_lt h3,
        Nat.le_of_not_lt h4, Nat.le_of_not_lt h5, h.symm⟩
  · rintro ⟨hp, ha0, ha, hpay, hpub, htot, rfl⟩
    unfold publicMint
    rw [if_neg (by simp [hp]), if_neg (by omega), if_neg (by omega),
      if_neg (by omega), if_neg (by omega)]

/-- A gift mint succeeds exactly when the caller is the owner, the amount is
in range and the supply ceilings leave room, and then performs exactly the
documented state update. -/
theorem giftMint_ok_iff (s : State) (c : Addr) (a : Nat) (r : Addr)
    (s' : State) :
    giftMint s c a r = .ok s' ↔
      (c = s.contractOwner ∧ a ≠ 0 ∧ a ≤ s.maxMintAmountPerTx ∧
       s.publicSaleMinted + a ≤ s.maxSupplyPublicSale ∧
       s.preSaleMinted + s.publicSaleMinted + a ≤ s.maxSupply ∧
       s' = { s with
         owners := s.owners ++ List.replicate a r
         publicSaleMinted := s.publicSaleMinted + a }) := by
  constructor
  · intro h
    unfold giftMint at h
    split_ifs at h with h1 h2 h3 h4
    injection h with h
    exact ⟨not_not.mp h1, by omega, by omega, Nat.le_of_not_lt h3,
        Nat.le_of_not_lt h4, h.symm⟩
  · rintro ⟨hco, ha0, ha, hpub, htot, rfl⟩
    unfold giftMint
    rw [if_neg (by simp [hco]), if_neg (by omega), if_neg (by omega),
      if_neg (by omega)]

/-- Executing one mint request never changes the sale configuration, the
ceilings or the owner; counters and records only ever grow by the minted
amount or stay put. -/
theorem execMint_config (H : HashModel) (s : State) (op : MintOp) :
    (execMint H s op).contractOwner = s.contractOwner ∧
    (execMint H s op).cost = s.cost ∧
    (execMint H s op).maxSupply = s.maxSupply ∧
    (execMint H s op).maxSupplyPreSale = s.maxSupplyPreSale ∧
    (execMint H s op).maxSupplyPublicSale = s.maxSupplyPublicSale ∧
    (execMint H s op).maxMintAmountPerTx = s.maxMintAmountPerTx ∧
    (execMint H s op).paused = s.paused ∧
    (execMint H s op).whitelistMintEnabled = s.whitelistMintEnabled ∧
    (execMint H s op).merkleRoot = s.merkleRoot := by
  cases op with
  | presale c a pf pay =>
    simp only [execMint]
    cases hE : preSaleMint H s c a pf pay with
    | ok s' =>
      obtain ⟨-, -, -, -, -, -, -, hs'⟩ := (preSaleMint_ok_iff H s c a pf pay s').mp hE
      subst hs'; simp
    | error e => simp
  | public c a pay =>
    simp only [execMint]
    cases hE : publicMint s c a pay with
    | ok s' =>
      obtain ⟨-, -, -, -, -, -, hs'⟩ := (publicMint_ok_iff s c a pay s').mp hE
      subst hs'; simp
    | error e => simp
  | gift c a r =>
    simp only [execMint]
    cases hE : giftMint s c a r with
    | ok s' =>
      obtain ⟨-, -, -, -, -, hs'⟩ := (giftMint_ok_iff s c a r s').mp hE
      subst hs'; simp
    | error e => simp

/-- The claimed record is monotone: once an address is marked claimed, no
mint request ever clears it. -/
theorem execMint_claimed_mono (H : HashModel) (s : State) (op : MintOp)
    (x : Addr) (hx : x ∈ s.claimed) : x ∈ (execMint H s op).claimed := by
  cases op with
  | presale c a pf pay =>
    simp only [execMint]
    cases hE : preSaleMint H s c a pf pay with
    | ok s' =>
      obtain ⟨-, -, -, -, -, -, -, hs'⟩ := (preSaleMint_ok_iff H s c a pf pay s').mp hE
      subst hs'; exact List.mem_cons_of_mem _ hx
    | error e => exact hx
  | public c a pay =>
    simp only [execMint]
    cases hE : publicMint s c a pay with
    | ok s' =>
      obtain ⟨-, -, -, -, -, -, hs'⟩ := (publicMint_ok_iff s c a pay s').mp hE
      subst hs'; exact hx
    | error e => exact hx
  | gift c a r =>
    simp only [execMint]
    cases hE : giftMint s c a r with
    | ok s' =>
      obtain ⟨-, -, -, -, -, hs'⟩ := (giftMint_ok_iff s c a r s').mp hE
      subst hs'; exact hx
    | error e => exact hx

/-- Configuration preservation extended to sequences of mint requests. -/
theorem execMints_config (H : HashModel) (ops : List MintOp) (s : State) :
    (execMints H s ops).contractOwner = s.contractOwner ∧
    (execMints H s ops).cost = s.cost ∧
    (execMints H s ops).maxSupply = s.maxSupply ∧
    (execMints H s ops).maxSupplyPreSale = s.maxSupplyPreSale ∧
    (execMints H s ops).maxSupplyPublicSale = s.maxSupplyPublicSale ∧
    (execMints H s ops).maxMintAmountPerTx = s.maxMintAmountPerTx ∧
    (execMints H s ops).paused = s.paused ∧
    (execMints H s ops).whitelistMintEnabled = s.whitelistMintEnabled ∧
    (execMints H s ops).merkleRoot = s.merkleRoot := by
  induction ops generalizing s with
  | nil => simp [execMints]
  | cons op rest ih =>
    obtain ⟨a1, a2, a3, a4, a5, a6, a7, a8, a9⟩ := execMint_config H s op
    obtain ⟨b1, b2, b3, b4, b5, b6, b7, b8, b9⟩ := ih (execMint H s op)
    simp only [execMints, List.foldl_cons] at b1 b2 b3 b4 b5 b6 b7 b8 b9 ⊢
    exact ⟨b1.trans a1, b2.trans a2, b3.trans a3, b4.trans a4, b5.trans a5,
      b6.trans a6, b7.trans a7, b8.trans a8, b9.trans a9⟩

/-- Claim-record monotonicity extended to sequences of mint requests. -/
theorem execMints_claimed_mono (H : HashModel) (ops : List MintOp)
    (s : State) (x : Addr) (hx : x ∈ s.claimed) :
    x ∈ (execMints H s ops).claimed := by
  induction ops generalizing s with
  | nil => simpa [execMints] using hx
  | cons op rest ih =>
    simp only [execMints, List.foldl_cons]
    exact ih (execMint H s op) (execMint_claimed_mono H s op x hx)

/-- One mint request preserves the supply invariant, assuming the ceiling
partition equation. -/
theorem execMint_inv (H : HashModel) (s : State) (op : MintOp)
    (hceil : CeilingsEq s) (hinv : SupplyInv s) :
    SupplyInv (execMint H s op) := by
  obtain ⟨hpre, hpub, htot, hmax⟩ := hinv
  unfold totalSupply at htot hmax
  cases op with
  | presale c a pf pay =>
    simp only [execMint]
    cases hE : preSaleMint H s c a pf pay with
    | ok s' =>
      obtain ⟨-, -, -, -, -, -, hsup, hs'⟩ :=
        (preSaleMint_ok_iff H s c a pf pay s').mp hE
      subst hs'
      refine ⟨?_, ?_, ?_, ?_⟩ <;>
        simp [totalSupply, List.length_append, List.length_replicate] <;> omega
    | error e => exact ⟨hpre, hpub, htot, hmax⟩
  | public c a pay =>
    simp only [execMint]
    cases hE : publicMint s c a pay with
    | ok s' =>
      obtain ⟨-, -, -, -, hsup, hstot, hs'⟩ :=
        (publicMint_ok_iff s c a pay s').mp hE
      subst hs'
      refine ⟨?_, ?_, ?_, ?_⟩ <;>
        simp [totalSupply, List.length_append, List.length_replicate] <;> omega
    | error e => exact ⟨hpre, hpub, htot, hmax⟩
  | gift c a r =>
    simp only [execMint]
    cases hE : giftMint s c a r with
    | ok s' =>
      obtain ⟨-, -, -, hsup, hstot, hs'⟩ := (giftMint_ok_iff s c a r s').mp hE
      subst hs'
      refine ⟨?_, ?_, ?_, ?_⟩ <;>
        simp [totalSupply, List.length_append, List.length_replicate] <;> omega
    | error e => exact ⟨hpre, hpub, htot, hmax⟩

/-- A sequence of mint requests preserves the supply invariant. -/
theorem execMints_inv (H : HashModel) (ops : List MintOp) (s : State)
    (hceil : CeilingsEq s) (hinv : SupplyInv s) :
    SupplyInv (execMints H s ops) := by
  induction ops generalizing s with
  | nil => simpa [execMints] using hinv
  | cons op rest ih =>
    simp only [execMints, List.foldl_cons]
    have hceil' : CeilingsEq (execMint H s op) := by
      obtain ⟨-, -, h3, h4, h5, -⟩ := execMint_config H s op
      unfold CeilingsEq at hceil ⊢
      omega
    exact ih (execMint H s op) hceil' (execMint_inv H s op hceil hinv)

/-- C1: after every sequence of successful and failed mint operations, total
supply equals preSaleMinted + publicSaleMinted and each counter respects its
ceiling; moreover, with the public ceiling exactly reached a well-formed
request for one more unit fails with PublicSaleSupplyExceeded, with the
global ceiling reached it fails with MaxSupplyExceeded, and either way the
state (hence totalSupply) stays pinned. -/
theorem c1_supply_accounting :
    (∀ (H : HashModel) (s : State) (ops : List MintOp),
        CeilingsEq s → SupplyInv s → SupplyInv (execMints H s ops)) ∧
    (∀ (s : State) (c : Addr) (pay : Nat),
        s.paused = false → 1 ≤ s.maxMintAmountPerTx → s.cost ≤ pay →
        s.publicSaleMinted = s.maxSupplyPublicSale →
        publicMint s c 1 pay = .error .PublicSaleSupplyExceeded ∧
        ∀ H, execMint H s (.public c 1 pay) = s) ∧
    (∀ (s : State) (c : Addr) (pay : Nat),
        s.paused = false → 1 ≤ s.maxMintAmountPerTx → s.cost ≤ pay →
        s.publicSaleMinted + 1 ≤ s.maxSupplyPublicSale →
        s.maxSupply ≤ s.preSaleMinted + s.publicSaleMinted →
        publicMint s c 1 pay = .error .MaxSupplyExceeded ∧
        ∀ H, execMint H s (.public c 1 pay) = s) := by
  refine ⟨fun H s ops hceil hinv => execMints_inv H ops s hceil hinv,
    fun s c pay hp hlim hpay hfull => ?_, fun s c pay hp hlim hpay hpub htot => ?_⟩
  · have herr : publicMint s c 1 pay = .error .PublicSaleSupplyExceeded := by
      unfold publicMint
      rw [if_neg (by simp [hp]), if_neg (by omega), if_neg (by omega),
        if_pos (by omega)]
    exact ⟨herr, fun H => by simp only [execMint, herr]⟩
  · have herr : publicMint s c 1 pay = .error .MaxSupplyExceeded := by
      unfold publicMint
      rw [if_neg (by simp [hp]), if_neg (by omega), if_neg (by omega),
        if_neg (by omega), if_pos (by omega)]
    exact ⟨herr, fun H => by simp only [execMint, herr]⟩

theorem c1_supply_accounting_witness :
    SupplyInv (execMints concreteHash baseState
      [MintOp.gift 0 2 9, MintOp.public 7 1 9, MintOp.public 7 2 10]) ∧
    publicMint pubFullState 7 1 9 = .error .PublicSaleSupplyExceeded ∧
    execMint concreteHash pubFullState (.public 7 1 9) = pubFullState ∧
    publicMint totFullState 7 1 9 = .error .MaxSupplyExceeded ∧
    execMint concreteHash totFullState (.public 7 1 9) = totFullState :=
  ⟨c1_supply_accounting.1 concreteHash baseState _ (by decide) (by decide),
   (c1_supply_accounting.2.1 pubFullState 7 9 (by decide) (by decide)
     (by decide) (by decide)).1,
   (c1_supply_accounting.2.1 pubFullState 7 9 (by decide) (by decide)
     (by decide) (by decide)).2 concreteHash,
   (c1_supply_accounting.2.2 totFullState 7 9 (by decide) (by decide)
     (by decide) (by decide) (by decide)).1,
   (c1_supply_accounting.2.2 totFullState 7 9 (by decide) (by decide)
     (by decide) (by decide) (by decide)).2 concreteHash⟩

/-- C4: when paused, every publicMint fails with ContractPaused regardless
of caller; when the whitelist phase is disabled, every preSaleMint fails
with WhitelistNotEnabled; and the outcome of preSaleMint is independent of
the paused flag (it only carries the flag through unchanged). -/
theorem c4_phase_gating :
    (∀ (s : State) (c : Addr) (a pay : Nat),
        s.paused = true → publicMint s c a pay = .error .ContractPaused) ∧
    (∀ (H : HashModel) (s : State) (c : Addr) (a : Nat) (pf : List Nat)
        (pay : Nat),
        s.whitelistMintEnabled = false →
        preSaleMint H s c a pf pay = .error .WhitelistNotEnabled) ∧
    (∀ (H : HashModel) (s : State) (b : Bool) (c : Addr) (a : Nat)
        (pf : List Nat) (pay : Nat),
        preSaleMint H { s with paused := b } c a pf pay =
          (preSaleMint H s c a pf pay).map (fun t => { t with paused := b })) := by
  refine ⟨fun s c a pay hp => by simp [publicMint, hp],
    fun H s c a pf pay hw => by simp [preSaleMint, hw],
    fun H s b c a pf pay => ?_⟩
  simp only [preSaleMint]
  split_ifs <;> rfl

theorem c4_phase_gating_witness :
    publicMint baseState 7 1 9 = .error .ContractPaused ∧
    preSaleMint concreteHash baseState 7 1 [] 9 = .error .WhitelistNotEnabled :=
  ⟨c4_phase_gating.1 baseState 7 1 9 (by decide),
   c4_phase_gating.2.1 concreteHash baseState 7 1 [] 9 (by decide)⟩

/-- C2 is false as stated: an underpaid publicMint on a paused contract
fails with ContractPaused, not InsufficientPayment (the pause check comes
first in the documented order). -/
theorem c2_counterexample :
    4 < baseState.cost * 1 ∧
    publicMint baseState 7 1 4 = .error .ContractPaused ∧
    publicMint baseState 7 1 4 ≠ .error .InsufficientPayment := by decide

/-- C2 (amended): an underpaid mint call never mutates any state (counters,
claim records, ownership records), and it fails with InsufficientPayment
exactly when the preceding phase-gate and amount checks pass. -/
theorem c2_insufficient_payment :
    (∀ (H : HashModel) (s : State) (c : Addr) (a : Nat) (pf : List Nat)
        (pay : Nat), pay < s.cost * a →
        execMint H s (.presale c a pf pay) = s) ∧
    (∀ (H : HashModel) (s : State) (c : Addr) (a pay : Nat),
        pay < s.cost * a → execMint H s (.public c a pay) = s) ∧
    (∀ (H : HashModel) (s : State) (c : Addr) (a : Nat) (pf : List Nat)
        (pay : Nat), s.whitelistMintEnabled = true → a ≠ 0 →
        a ≤ s.maxMintAmountPerTx → pay < s.cost * a →
        preSaleMint H s c a pf pay = .error .InsufficientPayment) ∧
    (∀ (s : State) (c : Addr) (a pay : Nat),
        s.paused = false → a ≠ 0 → a ≤ s.maxMintAmountPerTx →
        pay < s.cost * a → publicMint s c a pay = .error .InsufficientPayment) := by
  refine ⟨fun H s c a pf pay hu => ?_, fun H s c a pay hu => ?_,
    fun H s c a pf pay hw ha0 ha hu => ?_, fun s c a pay hp ha0 ha hu => ?_⟩
  · simp only [execMint]
    cases hE : preSaleMint H s c a pf pay with
    | ok s' =>
      obtain ⟨-, -, -, hpay, -⟩ := (preSaleMint_ok_iff H s c a pf pay s').mp hE
      omega
    | error e => rfl
  · simp only [execMint]
    cases hE : publicMint s c a pay with
    | ok s' =>
      obtain ⟨-, -, -, hpay, -⟩ := (publicMint_ok_iff s c a pay s').mp hE
      omega
    | error e => rfl
  · unfold preSaleMint
    rw [if_neg (by simp [hw]), if_neg (by omega), if_pos hu]
  · unfold publicMint
    rw [if_neg (by simp [hp]), if_neg (by omega), if_pos hu]

theorem c2_insufficient_payment_witness :
    execMint concreteHash wlState (.presale 5 1 [] 4) = wlState ∧
    execMint concreteHash pubFullState (.public 7 1 4) = pubFullState ∧
    preSaleMint concreteHash wlState 5 1 [] 4 = .error .InsufficientPayment ∧
    publicMint pubFullState 7 1 4 = .error .InsufficientPayment :=
  ⟨c2_insufficient_payment.1 concreteHash wlState 5 1 [] 4 (by decide),
   c2_insufficient_payment.2.1 concreteHash pubFullState 7 1 4 (by decide),
   c2_insufficient_payment.2.2.1 concreteHash wlState 5 1 [] 4 (by decide)
     (by decide) (by decide) (by decide),
   c2_insufficient_payment.2.2.2 pubFullState 7 1 4 (by decide) (by decide)
     (by decide) (by decide)⟩

/-- C3: after one successful preSaleMint from an address, every later
preSaleMint from the same address with a valid proof and sufficient payment
fails with AlreadyClaimed, whatever mint activity happened in between. -/
theorem c3_whitelist_once (H : HashModel) (s s' : State) (c : Addr)
    (a : Nat) (pf : List Nat) (pay : Nat) (ops : List MintOp)
    (a' : Nat) (pf' : List Nat) (pay' : Nat)
    (hok : preSaleMint H s c a pf pay = .ok s')
    (ha0 : a' ≠ 0)
    (ha : a' ≤ (execMints H s' ops).maxMintAmountPerTx)
    (hpay : (execMints H s' ops).cost * a' ≤ pay')
    (hproof : verify H c pf' (execMints H s' ops).merkleRoot = true) :
    preSaleMint H (execMints H s' ops) c a' pf' pay' =
      .error .AlreadyClaimed := by
  obtain ⟨hw, -, -, -, -, -, -, hs'⟩ := (preSaleMint_ok_iff H s c a pf pay s').mp hok
  have hcl : c ∈ (execMints H s' ops).claimed := by
    apply execMints_claimed_mono
    subst hs'; exact List.mem_cons_self _ _
  have hw' : (execMints H s' ops).whitelistMintEnabled = true := by
    obtain ⟨-, -, -, -, -, -, -, h8, -⟩ := execMints_config H ops s'
    rw [h8]; subst hs'; simpa using hw
  unfold preSaleMint
  rw [if_neg (by simp [hw']), if_neg (by omega), if_neg (by omega),
    if_pos hcl]

theorem c3_whitelist_once_witness :
    preSaleMint concreteHash (execMints concreteHash wlAfterState []) 5 1 [] 5 =
      .error .AlreadyClaimed :=
  c3_whitelist_once concreteHash wlState wlAfterState 5 1 [] 5 [] 1 [] 5
    (by decide) (by decide) (by decide) (by decide) (by decide)

/-- C5 is false as stated: the claim promises InvalidAmount "regardless of
caller", but a non-owner calling giftMint with an out-of-range amount fails
with Unauthorized, and a paused publicMint with an out-of-range amount
fails with ContractPaused. -/
theorem c5_counterexample :
    baseState.maxMintAmountPerTx < 3 ∧
    giftMint baseState 9 3 7 = .error .Unauthorized ∧
    giftMint baseState 9 3 7 ≠ .error .InvalidAmount ∧
    publicMint baseState 7 3 99 = .error .ContractPaused ∧
    publicMint baseState 7 3 99 ≠ .error .InvalidAmount := by decide

/-- C5 (amended): once the entry gate of each mint entry point passes
(whitelist enabled for preSaleMint, unpaused for publicMint, owner caller
for giftMint), a request with amount zero or above maxMintAmountPerTx fails
with InvalidAmount, regardless of payment, proof, or claim status. -/
theorem c5_invalid_amount :
    (∀ (H : HashModel) (s : State) (c : Addr) (a : Nat) (pf : List Nat)
        (pay : Nat), s.whitelistMintEnabled = true →
        (a = 0 ∨ s.maxMintAmountPerTx < a) →
        preSaleMint H s c a pf pay = .error .InvalidAmount) ∧
    (∀ (s : State) (c : Addr) (a pay : Nat),
        s.paused = false → (a = 0 ∨ s.maxMintAmountPerTx < a) →
        publicMint s c a pay = .error .InvalidAmount) ∧
    (∀ (s : State) (a : Nat) (r : Addr),
        (a = 0 ∨ s.maxMintAmountPerTx < a) →
        giftMint s s.contractOwner a r = .error .InvalidAmount) := by
  refine ⟨fun H s c a pf pay hw ha => ?_, fun s c a pay hp ha => ?_,
    fun s a r ha => ?_⟩
  · unfold preSaleMint
    rw [if_neg (by simp [hw]), if_pos ha]
  · unfold publicMint
    rw [if_neg (by simp [hp]), if_pos ha]
  · unfold giftMint
    rw [if_neg (by simp), if_pos ha]

/-- One sorted-pair fold step is injective in the running hash when the
pair hash is collision-free. -/
theorem hashStep_inj (H : HashModel) (hp : PairInjective H) (p : Nat)
    (r1 r2 : Nat) (h : hashStep H r1 p = hashStep H r2 p) : r1 = r2 := by
  unfold hashStep at h
  by_cases h1 : r1 ≤ p
  · by_cases h2 : r2 ≤ p
    · rw [if_pos h1, if_pos h2] at h
      exact (hp _ _ _ _ h).1
    · rw [if_pos h1, if_neg h2] at h
      obtain ⟨e1, e2⟩ := hp _ _ _ _ h
      omega
  · by_cases h2 : r2 ≤ p
    · rw [if_neg h1, if_pos h2] at h
      obtain ⟨e1, e2⟩ := hp _ _ _ _ h
      omega
    · rw [if_neg h1, if_neg h2] at h
      exact (hp _ _ _ _ h).2

/-- Folding a proof over two distinct starting hashes keeps them distinct
when the pair hash is collision-free. -/
theorem foldl_hashStep_inj (H : HashModel) (hp : PairInjective H)
    (pf : List Nat) : ∀ r1 r2,
    pf.foldl (hashStep H) r1 = pf.foldl (hashStep H) r2 → r1 = r2 := by
  induction pf with
  | nil => intro r1 r2 h; simpa using h
  | cons p rest ih =>
    intro r1 r2 h
    simp only [List.foldl_cons] at h
    exact hashStep_inj H hp p r1 r2 (ih _ _ h)

/-- A proof that verifies for address A cannot verify for a different
address B under collision-free hashes. -/
theorem verify_binds (H : HashModel) (hleaf : Function.Injective H.leaf)
    (hp : PairInjective H) (A B : Addr) (pf : List Nat) (root : Nat)
    (hA : verify H A pf root = true) (hne : B ≠ A) :
    verify H B pf root = false := by
  unfold verify at hA ⊢
  apply bool_ne_true
  intro hB
  rw [beq_iff_eq] at hA hB
  exact hne (hleaf (foldl_hashStep_inj H hp pf _ _ (hB.trans hA.symm)))

/-- C6: Merkle proofs are bound to the caller: a correct proof for a
different address, or any non-verifying proof, makes preSaleMint fail with
InvalidProof once the earlier checks pass; and the empty proof verifies
exactly when the caller's leaf equals the committed root. -/
theorem c6_proof_binding :
    (∀ (H : HashModel) (s : State) (A B : Addr) (a : Nat) (pf : List Nat)
        (pay : Nat),
        Function.Injective H.leaf → PairInjective H →
        verify H A pf s.merkleRoot = true → B ≠ A →
        s.whitelistMintEnabled = true → a ≠ 0 → a ≤ s.maxMintAmountPerTx →
        s.cost * a ≤ pay → B ∉ s.claimed →
        preSaleMint H s B a pf pay = .error .InvalidProof) ∧
    (∀ (H : HashModel) (s : State) (c : Addr) (a : Nat) (pf : List Nat)
        (pay : Nat),
        verify H c pf s.merkleRoot = false →
        s.whitelistMintEnabled = true → a ≠ 0 → a ≤ s.maxMintAmountPerTx →
        s.cost * a ≤ pay → c ∉ s.claimed →
        preSaleMint H s c a pf pay = .error .InvalidProof) ∧
    (∀ (H : HashModel) (c : Addr) (root : Nat),
        verify H c [] root = true ↔ H.leaf c = root) := by
  have core : ∀ (H : HashModel) (s : State) (c : Addr) (a : Nat)
      (pf : List Nat) (pay : Nat),
      verify H c pf s.merkleRoot = false →
      s.whitelistMintEnabled = true → a ≠ 0 → a ≤ s.maxMintAmountPerTx →
      s.cost * a ≤ pay → c ∉ s.claimed →
      preSaleMint H s c a pf pay = .error .InvalidProof := by
    intro H s c a pf pay hv hw ha0 ha hpay hcl
    unfold preSaleMint
    rw [if_neg (by simp [hw]), if_neg (by omega), if_neg (by omega),
      if_neg hcl, if_pos hv]
  refine ⟨fun H s A B a pf pay hleaf hp hA hne hw ha0 ha hpay hcl => ?_,
    core, fun H c root => ?_⟩
  · exact core H s B a pf pay (verify_binds H hleaf hp A B pf s.merkleRoot hA hne)
      hw ha0 ha hpay hcl
  · unfold verify
    simp [beq_iff_eq]

theorem c6_proof_binding_witness :
    preSaleMint concreteHash wlState 7 1 [] 5 = .error .InvalidProof ∧
    (verify concreteHash 5 [] 5 = true ↔ concreteHash.leaf 5 = 5) :=
  ⟨c6_proof_binding.1 concreteHash wlState 5 7 1 [] 5 (fun a b h => h)
      (fun a b c d h => Nat.pair_eq_pair.mp h) (by decide) (by decide)
      (by decide) (by decide) (by decide) (by decide) (by decide),
   c6_proof_binding.2.2 concreteHash 5 5⟩

/-- C7: giftMint and every owner-only entry point fail with Unauthorized
for non-owner callers; an owner gift with a valid amount and supply room
succeeds without payment even while paused and with the whitelist disabled,
allocating the tokens to the recipient; an out-of-range amount fails with
InvalidAmount; and the same supply-ceiling checks as the public mint apply. -/
theorem c7_gift_mint :
    (∀ (s : State) (c : Addr) (a : Nat) (r : Addr), c ≠ s.contractOwner →
        giftMint s c a r = .error .Unauthorized) ∧
    (∀ (s : State) (c : Addr) (root cost lim : Nat) (b : Bool) (u : String),
        c ≠ s.contractOwner →
        setMerkleRoot s c root = .error .Unauthorized ∧
        setWhitelistMintEnabled s c b = .error .Unauthorized ∧
        setPaused s c b = .error .Unauthorized ∧
        setCost s c cost = .error .Unauthorized ∧
        setMaxMintAmountPerTx s c lim = .error .Unauthorized ∧
        setHiddenMetadataUri s c u = .error .Unauthorized ∧
        setUriPrefix s c u = .error .Unauthorized ∧
        setUriSuffix s c u = .error .Unauthorized ∧
        setRevealed s c b = .error .Unauthorized ∧
        withdrawFunds s c = .error .Unauthorized) ∧
    (∀ (s : State) (a : Nat) (r : Addr),
        s.paused = true → s.whitelistMintEnabled = false →
        a ≠ 0 → a ≤ s.maxMintAmountPerTx →
        s.publicSaleMinted + a ≤ s.maxSupplyPublicSale →
        s.preSaleMinted + s.publicSaleMinted + a ≤ s.maxSupply →
        giftMint s s.contractOwner a r = .ok { s with
          owners := s.owners ++ List.replicate a r
          publicSaleMinted := s.publicSaleMinted + a }) ∧
    (∀ (s : State) (a : Nat) (r : Addr), s.maxMintAmountPerTx < a →
        giftMint s s.contractOwner a r = .error .InvalidAmount) ∧
    (∀ (s : State) (a : Nat) (r : Addr), a ≠ 0 → a ≤ s.maxMintAmountPerTx →
        s.maxSupplyPublicSale < s.publicSaleMinted + a →
        giftMint s s.contractOwner a r = .error .PublicSaleSupplyExceeded) ∧
    (∀ (s : State) (a : Nat) (r : Addr), a ≠ 0 → a ≤ s.maxMintAmountPerTx →
        s.publicSaleMinted + a ≤ s.maxSupplyPublicSale →
        s.maxSupply < s.preSaleMinted + s.publicSaleMinted + a →
        giftMint s s.contractOwner a r = .error .MaxSupplyExceeded) := by
  refine ⟨fun s c a r hc => ?_, fun s c root cost lim b u hc => ?_,
    fun s a r hp hw ha0 ha hpub htot => ?_, fun s a r ha => ?_,
    fun s a r ha0 ha hpub => ?_, fun s a r ha0 ha hpub htot => ?_⟩
  · unfold giftMint
    rw [if_pos hc]
  · have base : ∀ upd, ownerOnly s c upd = .error .Unauthorized := by
      intro upd
      unfold ownerOnly
      rw [if_pos hc]
    exact ⟨base _, base _, base _, base _, base _, base _, base _, base _,
      base _, base _⟩
  · exact (giftMint_ok_iff s s.contractOwner a r _).mpr
      ⟨rfl, ha0, ha, hpub, htot, rfl⟩
  · unfold giftMint
    rw [if_neg (by simp), if_pos (by omega)]
  · unfold giftMint
    rw [if_neg (by simp), if_neg (by omega), if_pos (by omega)]
  · unfold giftMint
    rw [if_neg (by simp), if_neg (by omega), if_neg (by omega),
      if_pos (by omega)]

theorem c7_gift_mint_witness :
    giftMint baseState 9 1 7 = .error .Unauthorized ∧
    withdrawFunds baseState 9 = .error .Unauthorized ∧
    setPaused baseState 9 false = .error .Unauthorized ∧
    giftMint baseState baseState.contractOwner 1 7 = .ok { baseState with
      owners := baseState.owners ++ List.replicate 1 7
      publicSaleMinted := baseState.publicSaleMinted + 1 } ∧
    giftMint baseState baseState.contractOwner 3 7 = .error .InvalidAmount ∧
    giftMint pubFullState pubFullState.contractOwner 1 7 =
      .error .PublicSaleSupplyExceeded ∧
    giftMint totFullState totFullState.contractOwner 1 7 =
      .error .MaxSupplyExceeded :=
  ⟨c7_gift_mint.1 baseState 9 1 7 (by decide),
   (c7_gift_mint.2.1 baseState 9 0 0 0 false "x" (by decide)).2.2.2.2.2.2.2.2.2,
   (c7_gift_mint.2.1 baseState 9 0 0 0 false "x" (by decide)).2.2.1,
   c7_gift_mint.2.2.1 baseState 1 7 (by decide) (by decide) (by decide)
     (by decide) (by decide) (by decide),
   c7_gift_mint.2.2.2.1 baseState 3 7 (by decide),
   c7_gift_mint.2.2.2.2.1 pubFullState 1 7 (by decide) (by decide) (by decide),
   c7_gift_mint.2.2.2.2.2 totFullState 1 7 (by decide) (by decide) (by decide)
     (by decide)⟩

theorem c5_invalid_amount_witness :
    preSaleMint concreteHash wlState 5 3 [] 99 = .error .InvalidAmount ∧
    publicMint pubFullState 7 0 99 = .error .InvalidAmount ∧
    giftMint baseState baseState.contractOwner 3 7 = .error .InvalidAmount :=
  ⟨c5_invalid_amount.1 concreteHash wlState 5 3 [] 99 (by decide) (by decide),
   c5_invalid_amount.2.1 pubFullState 7 0 99 (by decide) (by decide),
   c5_invalid_amount.2.2 baseState 3 7 (by decide)⟩

/-- Decimal digit characters are pairwise distinct below base ten. -/
theorem digitChar_inj_lt :
    ∀ a, a < 10 → ∀ b, b < 10 → Nat.digitChar a = Nat.digitChar b → a = b := by
  decide

/-- Mapping digitChar over lists of digits below ten is injective. -/
theorem map_digitChar_inj :
    ∀ (l l' : List Nat), (∀ d ∈ l, d < 10) → (∀ d ∈ l', d < 10) →
    l.map Nat.digitChar = l'.map Nat.digitChar → l = l' := by
  intro l
  induction l with
  | nil =>
    intro l' _ _ h
    cases l' with
    | nil => rfl
    | cons y ys => simp at h
  | cons x xs ih =>
    intro l' hl hl' h
    cases l' with
    | nil => simp at h
    | cons y ys =>
      simp only [List.map_cons, List.cons.injEq] at h
      have hx : x = y :=
        digitChar_inj_lt x (hl x (List.mem_cons_self _ _))
          y (hl' y (List.mem_cons_self _ _)) h.1
      have hxs : xs = ys :=
        ih ys (fun d hd => hl d (List.mem_cons_of_mem _ hd))
          (fun d hd => hl' d (List.mem_cons_of_mem _ hd)) h.2
      rw [hx, hxs]

/-- Packing a character list into a string is injective. -/
theorem asString_inj (l l' : List Char) (h : l.asString = l'.asString) :
    l = l' := by
  have hd := congrArg String.data h
  simpa [List.asString] using hd

/-- natDecimal rendered through a uniform digit list (the zero case uses
the single digit 0). -/
theorem natDecimal_eq (n : Nat) :
    natDecimal n =
      (((if n = 0 then [0] else Nat.digits 10 n) : List Nat).reverse.map
        Nat.digitChar).asString := by
  unfold natDecimal
  by_cases hn : n = 0
  · rw [if_pos hn, if_pos hn]
    decide
  · rw [if_neg hn, if_neg hn]

/-- The digit lists backing natDecimal determine the number. -/
theorem ite_digits_inj (m n : Nat)
    (h : (if m = 0 then [0] else Nat.digits 10 m) =
         (if n = 0 then [0] else Nat.digits 10 n)) : m = n := by
  by_cases hm : m = 0 <;> by_cases hn : n = 0
  · omega
  · rw [if_pos hm, if_neg hn] at h
    have hc := Nat.ofDigits_digits 10 n
    rw [← h] at hc
    simp only [Nat.ofDigits_cons, Nat.ofDigits_nil] at hc
    omega
  · rw [if_neg hm, if_pos hn] at h
    have hc := Nat.ofDigits_digits 10 m
    rw [h] at hc
    simp only [Nat.ofDigits_cons, Nat.ofDigits_nil] at hc
    omega
  · rw [if_neg hm, if_neg hn] at h
    rw [← Nat.ofDigits_digits 10 m, ← Nat.ofDigits_digits 10 n, h]

/-- The digit lists backing natDecimal hold digits below ten only. -/
theorem ite_digits_lt (n : Nat) :
    ∀ d ∈ (if n = 0 then [0] else Nat.digits 10 n), d < 10 := by
  by_cases hn : n = 0
  · rw [if_pos hn]
    intro d hd
    simp at hd
    omega
  · rw [if_neg hn]
    intro d hd
    exact Nat.digits_lt_base (by norm_num) hd

/-- Decimal rendering is injective. -/
theorem natDecimal_inj : Function.Injective natDecimal := by
  intro m n h
  rw [natDecimal_eq m, natDecimal_eq n] at h
  have h1 := asString_inj _ _ h
  have h2 := map_digitChar_inj _ _
    (fun d hd => ite_digits_lt m d (List.mem_reverse.mp hd))
    (fun d hd => ite_digits_lt n d (List.mem_reverse.mp hd)) h1
  exact ite_digits_inj m n (List.reverse_injective h2)

/-- C8: tokenURI fails with NonexistentToken for identifier 0 and for every
unallocated identifier; before reveal it returns the single hidden URI for
every allocated identifier; after reveal it returns the URI prefix, the
decimal identifier and the URI suffix concatenated, distinct for distinct
allocated identifiers. -/
theorem c8_token_uri :
    (∀ s : State, tokenURI s 0 = .error .NonexistentToken) ∧
    (∀ (s : State) (id : Nat), totalSupply s < id →
        tokenURI s id = .error .NonexistentToken) ∧
    (∀ (s : State) (id : Nat), s.revealed = false → id ≠ 0 →
        id ≤ totalSupply s → tokenURI s id = .ok s.hiddenMetadataUri) ∧
    (∀ (s : State) (id : Nat), s.revealed = true → id ≠ 0 →
        id ≤ totalSupply s →
        tokenURI s id = .ok ( s.uriPrefix ++ natDecimal id ++ s.uriSuffix)) ∧
    (∀ (s : State) (i j : Nat), s.revealed = true → i ≠ 0 →
        i ≤ totalSupply s → j ≠ 0 → j ≤ totalSupply s → i ≠ j →
        tokenURI s i ≠ tokenURI s j) := by
  have uri4 : ∀ (s : State) (id : Nat), s.revealed = true → id ≠ 0 →
      id ≤ totalSupply s →
      tokenURI s id = .ok ( s.uriPrefix ++ natDecimal id ++ s.uriSuffix) := by
    intro s id hrev h0 hle
    unfold totalSupply at hle
    unfold tokenURI
    rw [if_neg (by omega), if_neg (by simp [hrev])]
  refine ⟨fun s => ?_, fun s id h => ?_, fun s id hrev h0 hle => ?_, uri4,
    fun s i j hrev hi0 hi hj0 hj hij => ?_⟩
  · unfold tokenURI
    rw [if_pos (Or.inl rfl)]
  · unfold totalSupply at h
    unfold tokenURI
    rw [if_pos (Or.inr h)]
  · unfold totalSupply at hle
    unfold tokenURI
    rw [if_neg (by omega)]
    exact if_pos hrev
  · intro hcontra
    rw [uri4 s i hrev hi0 hi, uri4 s j hrev hj0 hj] at hcontra
    simp only [Except.ok.injEq] at hcontra
    have hd := congrArg String.data hcontra
    simp only [String.data_append] at hd
    have h1 := List.append_cancel_right hd
    have h2 := List.append_cancel_left h1
    exact hij (natDecimal_inj (String.ext h2))

theorem c8_token_uri_witness :
    tokenURI revealState 0 = .error .NonexistentToken ∧
    tokenURI revealState 3 = .error .NonexistentToken ∧
    tokenURI wlAfterState 1 = .ok wlAfterState.hiddenMetadataUri ∧
    tokenURI revealState 1 =
      .ok ( revealState.uriPrefix ++ natDecimal 1 ++ revealState.uriSuffix) ∧
    tokenURI revealState 1 ≠ tokenURI revealState 2 :=
  ⟨c8_token_uri.1 revealState,
   c8_token_uri.2.1 revealState 3 (by decide),
   c8_token_uri.2.2.1 wlAfterState 1 (by decide) (by decide) (by decide),
   c8_token_uri.2.2.2.1 revealState 1 (by decide) (by decide) (by decide),
   c8_token_uri.2.2.2.2 revealState 1 2 (by decide) (by decide) (by decide)
     (by decide) (by decide) (by decide)⟩

/-- Appending a block of `a` records for `c` keeps the old identifiers'
owners, gives the `a` fresh identifiers (the next unused ones) to `c`, and
grows total supply by `a`. -/
theorem ownerOf_extend (s s' : State) (a : Nat) (c : Addr)
    (h : s'.owners = s.owners ++ List.replicate a c) :
    totalSupply s' = totalSupply s + a ∧
    (∀ id, totalSupply s < id → id ≤ totalSupply s + a →
      ownerOf s' id = some c) ∧
    (∀ id, id ≤ totalSupply s → ownerOf s' id = ownerOf s id) := by
  unfold totalSupply ownerOf
  refine ⟨by rw [h]; simp, ?_, ?_⟩
  · intro id h1 h2
    rw [if_neg (by omega), h,
      List.get?_append_right (by omega),
      List.get?_eq_getElem?, List.getElem?_replicate, if_pos (by omega)]
  · intro id h1
    by_cases h0 : id = 0
    · rw [if_pos h0, if_pos h0]
    · rw [if_neg h0, if_neg h0, h, List.get?_append (by omega)]

/-- C9: walletOfOwner returns, in strictly ascending order, exactly the
identifiers currently owned by the queried address; every successful mint
assigns a contiguous increasing block of identifiers starting at the next
unused one, leaving older identifiers untouched; numbering starts at 1. -/
theorem c9_wallet_of_owner :
    (∀ (s : State) (x : Addr), List.Pairwise (· < ·) (walletOfOwner s x)) ∧
    (∀ (s : State) (x : Addr) (id : Nat),
        id ∈ walletOfOwner s x ↔ ownerOf s id = some x) ∧
    (∀ (H : HashModel) (s : State) (c : Addr) (a : Nat) (pf : List Nat)
        (pay : Nat) (s' : State), preSaleMint H s c a pf pay = .ok s' →
        totalSupply s' = totalSupply s + a ∧
        (∀ id, totalSupply s < id → id ≤ totalSupply s + a →
          ownerOf s' id = some c) ∧
        (∀ id, id ≤ totalSupply s → ownerOf s' id = ownerOf s id)) ∧
    (∀ (s : State) (c : Addr) (a pay : Nat) (s' : State),
        publicMint s c a pay = .ok s' →
        totalSupply s' = totalSupply s + a ∧
        (∀ id, totalSupply s < id → id ≤ totalSupply s + a →
          ownerOf s' id = some c) ∧
        (∀ id, id ≤ totalSupply s → ownerOf s' id = ownerOf s id)) ∧
    (∀ (s : State) (c : Addr) (a : Nat) (r : Addr) (s' : State),
        giftMint s c a r = .ok s' →
        totalSupply s' = totalSupply s + a ∧
        (∀ id, totalSupply s < id → id ≤ totalSupply s + a →
          ownerOf s' id = some r) ∧
        (∀ id, id ≤ totalSupply s → ownerOf s' id = ownerOf s id)) ∧
    (∀ (s : State) (c : Addr) (a : Nat) (r : Addr) (s' : State),
        totalSupply s = 0 → giftMint s c a r = .ok s' →
        ownerOf s' 1 = some r) := by
  refine ⟨fun s x => ?_, fun s x id => ?_,
    fun H s c a pf pay s' hok => ?_, fun s c a pay s' hok => ?_,
    fun s c a r s' hok => ?_, fun s c a r s' h0 hok => ?_⟩
  · unfold walletOfOwner
    apply List.Pairwise.filter
    exact (List.pairwise_map).mpr
      ((List.pairwise_lt_range _).imp (fun hab => by omega))
  · unfold walletOfOwner
    rw [List.mem_filter]
    constructor
    · rintro ⟨-, hp⟩
      rwa [beq_iff_eq] at hp
    · intro h
      refine ⟨?_, by rw [h]; exact beq_self_eq_true _⟩
      have h0 : id ≠ 0 := by
        intro h0
        rw [h0] at h
        unfold ownerOf at h
        rw [if_pos rfl] at h
        exact Option.noConfusion h
      have hlt : id - 1 < s.owners.length := by
        unfold ownerOf at h
        rw [if_neg h0] at h
        obtain ⟨hb, -⟩ := List.get?_eq_some.mp h
        exact hb
      exact List.mem_map.mpr ⟨id - 1, List.mem_range.mpr hlt, by omega⟩
  · obtain ⟨-, -, -, -, -, -, -, hs'⟩ :=
      (preSaleMint_ok_iff H s c a pf pay s').mp hok
    exact ownerOf_extend s s' a c (by rw [hs'])
  · obtain ⟨-, -, -, -, -, -, hs'⟩ := (publicMint_ok_iff s c a pay s').mp hok
    exact ownerOf_extend s s' a c (by rw [hs'])
  · obtain ⟨-, -, -, -, -, hs'⟩ := (giftMint_ok_iff s c a r s').mp hok
    exact ownerOf_extend s s' a r (by rw [hs'])
  · obtain ⟨-, ha0, -, -, -, hs'⟩ := (giftMint_ok_iff s c a r s').mp hok
    exact (ownerOf_extend s s' a r (by rw [hs'])).2.1 1 (by omega) (by omega)

theorem c9_wallet_of_owner_witness :
    (totalSupply wlAfterState = totalSupply wlState + 1 ∧
      (∀ id, totalSupply wlState < id → id ≤ totalSupply wlState + 1 →
        ownerOf wlAfterState id = some 5) ∧
      (∀ id, id ≤ totalSupply wlState →
        ownerOf wlAfterState id = ownerOf wlState id)) ∧
    ownerOf { baseState with
      owners := baseState.owners ++ List.replicate 1 7
      publicSaleMinted := baseState.publicSaleMinted + 1 } 1 = some 7 :=
  ⟨c9_wallet_of_owner.2.2.1 concreteHash wlState 5 1 [] 5 wlAfterState
     (by decide),
   c9_wallet_of_owner.2.2.2.2.2 baseState 0 1 7 _ (by decide) (by decide)⟩

/-- C10: immediately after deployment the contract is fully closed: paused,
whitelist disabled, unrevealed, cost and per-transaction limit equal to the
constructor arguments, and tokenURI fails with NonexistentToken for every
identifier since nothing is allocated. -/
theorem c10_initial_state (ownerAddr : Addr) (nm sy : String)
    (price lim : Nat) (hid : String) (maxS maxPre maxPub : Nat) :
    (deploy ownerAddr nm sy price lim hid maxS maxPre maxPub).paused = true ∧
    (deploy ownerAddr nm sy price lim hid maxS maxPre maxPub).whitelistMintEnabled
      = false ∧
    (deploy ownerAddr nm sy price lim hid maxS maxPre maxPub).revealed = false ∧
    (deploy ownerAddr nm sy price lim hid maxS maxPre maxPub).cost = price ∧
    (deploy ownerAddr nm sy price lim hid maxS maxPre maxPub).maxMintAmountPerTx
      = lim ∧
    (deploy ownerAddr nm sy price lim hid maxS maxPre maxPub).name = nm ∧
    (deploy ownerAddr nm sy price lim hid maxS maxPre maxPub).symbol = sy ∧
    (deploy ownerAddr nm sy price lim hid maxS maxPre maxPub).hiddenMetadataUri
      = hid ∧
    totalSupply (deploy ownerAddr nm sy price lim hid maxS maxPre maxPub) = 0 ∧
    ∀ id, tokenURI (deploy ownerAddr nm sy price lim hid maxS maxPre maxPub) id
      = .error .NonexistentToken := by
  refine ⟨rfl, rfl, rfl, rfl, rfl, rfl, rfl, rfl, rfl, fun id => ?_⟩
  unfold tokenURI deploy
  rw [if_pos]
  simp only [List.length_nil]
  omega

end NftDemo
